import Mathlib

/-!
Verification of the NØRAN front-end interaction script (src/script.js).

The script wires five independent UI units to the document: a sticky
header watcher, a mobile menu toggle, a scroll-reveal engine built on an
intersection observer, a numeric counter animation, and a mocked video
player button.  Each unit is embedded below as a pure Lean function or
an explicit state-passing model; DOM timestamps and scroll offsets are
modelled as rationals, class lists as lists of strings, and the
JavaScript falsiness test `!startTimestamp` is modelled exactly (it is
true for `null` and for the number 0).
-/

namespace Noran

/-- The central `CONFIG` object of the script. -/
structure Config where
  scrollThreshold : ℚ
  counterDuration : ℚ
  staggerDelay : ℕ
  deriving Repr

/-- `CONFIG = { scrollThreshold: 50, counterDuration: 2000, staggerDelay: 100 }`
(`animationOffset` is consumed only by CSS and is not modelled). -/
def CONFIG : Config :=
  { scrollThreshold := 50, counterDuration := 2000, staggerDelay := 100 }

/-! ### 1. Smart sticky header (`initStickyHeader` / `handleScroll`)

The handler reads `window.scrollY` and adds the class `header-scrolled`
to the header when it exceeds `CONFIG.scrollThreshold`, otherwise
removes it.  The header's class-list membership of `header-scrolled` is
the one bit of state the handler touches, so it is modelled as a `Bool`
(present / absent). -/

/-- One run of the scroll handler: given the current scroll offset and
whether the header currently carries `header-scrolled`, return whether
it carries the class afterwards.  `classList.add` and
`classList.remove` set the bit unconditionally. -/
def handleScroll (scrollY : ℚ) (_headerScrolled : Bool) : Bool :=
  if scrollY > CONFIG.scrollThreshold then true else false

/-! ### 2. Mobile menu (`initMobileMenu` / `toggleMenu`) -/

/-- The DOM state the menu controller mutates: the `active` class on the
nav list, the `active` class on the toggle button, and the button's
`aria-expanded` attribute. -/
structure MenuState where
  navActive : Bool
  btnActive : Bool
  ariaExpanded : Bool
  deriving Repr, DecidableEq

/-- `toggleMenu`: reads `isActive` from the nav list's class list, then
toggles `active` on the list and the button and sets
`aria-expanded = !isActive`. -/
def toggleMenu (s : MenuState) : MenuState :=
  let isActive := s.navActive
  { navActive := !s.navActive
    btnActive := !s.btnActive
    ariaExpanded := !isActive }

/-- The initial markup state: menu closed, button idle. -/
def initialMenu : MenuState :=
  { navActive := false, btnActive := false, ariaExpanded := false }

/-- The menu counts as Open exactly when the nav list carries `active`;
this is the bit `toggleMenu` itself reads to decide direction. -/
def menuOpen (s : MenuState) : Bool := s.navActive

/-! ### 3. Scroll-reveal engine (`initScrollReveal`)

Two parts are modelled separately: the stagger-grid initialisation loop,
and the observer callback `revealCallback` (further below with the
counter). -/

/-- A child element of a stagger grid: its class list and its inline
`transition-delay` in milliseconds (initially absent, modelled as 0 —
only the value written by the loop matters for the claims). -/
structure StaggerChild where
  classes : List String
  transitionDelay : ℕ
  deriving Repr, DecidableEq

/-- `classList.add c`: adds the class only if not already present. -/
def classListAdd (c : String) (cs : List String) : List String :=
  if c ∈ cs then cs else cs ++ [c]

/-- The body of the stagger loop for the child at position `index`:
`child.classList.add('reveal-up')` and
`child.style.transitionDelay = index * CONFIG.staggerDelay + "ms"`.
The `Bool` component records that `observer.observe(child)` was called. -/
def staggerStep (index : ℕ) (c : StaggerChild) : StaggerChild × Bool :=
  ({ classes := classListAdd "reveal-up" c.classes
     transitionDelay := index * CONFIG.staggerDelay }, true)

/-- The stagger loop over `container.children` in document order
(`Array.from(children).forEach((child, index) => ...)`). -/
def staggerInit (children : List StaggerChild) : List (StaggerChild × Bool) :=
  children.enum.map fun p => staggerStep p.1 p.2

/-! ### 5. Video mockup (`initVideoMockup`)

A play button's click handler captures `originalText = btn.innerHTML`,
overwrites the label with a loading span, and schedules a 800 ms timer
that restores `originalText` and raises an `alert`.  The single-threaded
event loop is modelled as a queue of pending timers (each carrying the
label it captured) consumed in FIFO order. -/

/-- The literal loading label the handler writes
(`btn.innerHTML = '<span style="font-size: 0.8rem;">Carregando...</span>'`). -/
def loadingLabel : String := "<span style=\"font-size: 0.8rem;\">Carregando...</span>"

/-- State of one play button plus its event loop: current `innerHTML`,
how many times the placeholder `alert` has fired, and the pending
800 ms timers in scheduling order, each holding the `originalText` it
captured at click time. -/
structure VideoState where
  label : String
  alerts : ℕ
  pending : List String
  deriving Repr, DecidableEq

/-- The click handler body (the 150 ms scale feedback only touches
`style.transform` and is irrelevant to the label claims): capture the
current label, display the loading span, schedule the restore timer. -/
def clickPlay (s : VideoState) : VideoState :=
  { label := loadingLabel
    alerts := s.alerts
    pending := s.pending ++ [s.label] }

/-- The oldest pending 800 ms timer fires: restores the label it
captured and raises the placeholder alert. -/
def fireTimer (s : VideoState) : VideoState :=
  match s.pending with
  | [] => s
  | orig :: rest => { label := orig, alerts := s.alerts + 1, pending := rest }

/-- Events delivered to the button by the event loop. -/
inductive VideoEvent where
  | click : VideoEvent
  | fire : VideoEvent
  deriving Repr, DecidableEq

/-- Run a sequence of events against a button state. -/
def videoRun (evs : List VideoEvent) (s : VideoState) : VideoState :=
  evs.foldl (fun st ev => match ev with
    | VideoEvent.click => clickPlay st
    | VideoEvent.fire => fireTimer st) s

/-! ### Startup anchor checks (`initStickyHeader`, `initMobileMenu`)

Each init function queries its DOM anchors and returns early when they
are missing.  The observable effects of a unit's initialisation are the
listeners it installs, the DOM mutations it performs, and the console
lines it writes; a page state carries all three. -/

/-- The page as each init function sees it: whether the anchor elements
exist, plus the externally observable effect log. -/
structure PageState where
  headerPresent : Bool
  menuBtnPresent : Bool
  navListPresent : Bool
  listeners : List String
  domMutations : ℕ
  consoleLines : List String
  deriving Repr, DecidableEq

/-- `initStickyHeader`: `if (!header) return;` — otherwise install the
passive scroll listener.  Installation itself performs no DOM mutation
and logs nothing. -/
def initStickyHeader (p : PageState) : PageState :=
  if p.headerPresent then
    { p with listeners := p.listeners ++ ["scroll:handleScroll"] }
  else
    p

/-- `initMobileMenu`: `if (!menuBtn || !navList) return;` — otherwise
install the toggle click listener, the per-link close listeners and the
outside-click document listener. -/
def initMobileMenu (p : PageState) : PageState :=
  if p.menuBtnPresent && p.navListPresent then
    { p with listeners := p.listeners ++ ["click:toggleMenu", "click:navLinkClose", "click:outsideClose"] }
  else
    p

/-! ### 4. Number counter (`animateValue` / `step`)

`animateValue` reads `target` (a non-negative integer per the spec) and
`suffix` from the element's attributes, then drives `step` via
`requestAnimationFrame`.  Timestamps and the arithmetic of the easing
formula are modelled over ℚ (the formula is exact there; the claims are
about the formula, not IEEE rounding).  The JavaScript guard
`if (!startTimestamp) startTimestamp = timestamp` is truthy for `null`
AND for the number 0, which the model reproduces exactly. -/

/-- The closure state of one `animateValue` invocation: the captured
`startTimestamp` (`null` initially), the element's current `innerHTML`,
and whether the animation has finished (i.e. the `else` branch ran and
no further frame was requested). -/
structure CounterState where
  startTimestamp : Option ℚ
  innerHTML : String
  shownVal : ℤ
  done : Bool
  deriving Repr, DecidableEq

/-- JavaScript falsiness of the `startTimestamp` variable:
`!startTimestamp` is true when it is still `null` or when it holds the
number 0. -/
def jsFalsy : Option ℚ → Bool
  | none => true
  | some s => s == 0

/-- The element before the animation starts: `startTimestamp = null`,
original markup text (its numeric reading is 0, e.g. `"0"`). -/
def initialCounter : CounterState :=
  { startTimestamp := none, innerHTML := "0", shownVal := 0, done := false }

/-- One call of `step(timestamp)`:
```
if (!startTimestamp) startTimestamp = timestamp;
const progress = Math.min((timestamp - startTimestamp) / duration, 1);
const easeProgress = 1 - Math.pow(1 - progress, 4);
obj.innerHTML = Math.floor(easeProgress * target) + suffix;
if (progress < 1) { requestAnimationFrame(step) }
else { obj.innerHTML = target + suffix; }
```
`shownVal` records the numeric value the final `innerHTML` write
displays on this frame (`Math.floor(easeProgress * target)`, or the
literal `target` when the `else` branch overwrote it). -/
def step (target : ℕ) (suffix : String) (duration : ℚ) (timestamp : ℚ)
    (st : CounterState) : CounterState :=
  let start : ℚ := if jsFalsy st.startTimestamp then timestamp else st.startTimestamp.getD 0
  let progress : ℚ := min ((timestamp - start) / duration) 1
  let easeProgress : ℚ := 1 - (1 - progress) ^ 4
  let shown : ℤ := ⌊easeProgress * (target : ℚ)⌋
  if progress < 1 then
    { startTimestamp := some start
      innerHTML := toString shown ++ suffix
      shownVal := shown
      done := false }
  else
    { startTimestamp := some start
      innerHTML := toString target ++ suffix
      shownVal := (target : ℤ)
      done := true }

/-- Run the animation against a sequence of frame timestamps: each frame
calls `step` unless the previous frame took the `else` branch (in which
case no further frame was requested and the state is frozen). -/
def animateRun (target : ℕ) (suffix : String) (duration : ℚ) :
    List ℚ → CounterState → CounterState
  | [], st => st
  | t :: ts, st =>
      if st.done then st
      else animateRun target suffix duration ts (step target suffix duration t st)

/-- The per-frame trace of `innerHTML` values the animation writes
(one entry per frame actually executed). -/
def animateTraceHTML (target : ℕ) (suffix : String) (duration : ℚ) :
    List ℚ → CounterState → List String
  | [], _ => []
  | t :: ts, st =>
      if st.done then []
      else
        let st2 := step target suffix duration t st
        st2.innerHTML :: animateTraceHTML target suffix duration ts st2

/-- The per-frame trace of displayed numeric values. -/
def animateTraceVal (target : ℕ) (suffix : String) (duration : ℚ) :
    List ℚ → CounterState → List ℤ
  | [], _ => []
  | t :: ts, st =>
      if st.done then []
      else
        let st2 := step target suffix duration t st
        st2.shownVal :: animateTraceVal target suffix duration ts st2

/-- The start reference the code actually animates against: the first
frame's timestamp, except that a first timestamp of exactly 0 is falsy
for the `!startTimestamp` guard, so the second frame's timestamp takes
over. -/
def effStart : List ℚ → ℚ
  | [] => 0
  | t :: ts => if t = 0 then (match ts with | [] => 0 | t2 :: _ => t2) else t

/-- Modelled from the spec: the displayed text the specification's
formula predicts for one frame at time `now`, with
`p = clamp((now - start)/duration, 0, 1)`: `floor((1 - (1-p)^4) * target)`
followed by the suffix while `p < 1`, and the exact literal
`target + suffix` on the frame where `p` reaches 1. -/
def specFrame (target : ℕ) (suffix : String) (duration start now : ℚ) : String :=
  let p : ℚ := max 0 (min ((now - start) / duration) 1)
  if p < 1 then toString (⌊(1 - (1 - p) ^ 4) * (target : ℚ)⌋ : ℤ) ++ suffix
  else toString target ++ suffix

/-- Modelled from the spec: the full per-frame text trace the
specification predicts, starting from `start` and stopping on the frame
where `p` reaches 1. -/
def specTrace (target : ℕ) (suffix : String) (duration start : ℚ) :
    List ℚ → List String
  | [] => []
  | t :: ts =>
      if max 0 (min ((t - start) / duration) 1) < 1 then
        specFrame target suffix duration start t ::
          specTrace target suffix duration start ts
      else
        [specFrame target suffix duration start t]

/-- The numeric value one frame displays when the start reference is
`s`: the floored eased value while unfinished, the literal target on
the finishing frame. -/
def frameVal (target : ℕ) (duration s t : ℚ) : ℤ :=
  let p : ℚ := min ((t - s) / duration) 1
  if p < 1 then ⌊(1 - (1 - p) ^ 4) * (target : ℚ)⌋ else (target : ℤ)

/-! ### 3b. Observer callback (`revealCallback`)

Elements are identified by natural-number ids; `hasCount e` says the
element carries a `data-count` attribute.  The observer's state is the
set of ids currently observed; per element the model counts the times
`classList.add('visible')` ran and the times `animateValue` was
invoked.  A callback invocation receives a batch of entries; the
browser delivers entries only for elements it currently observes, at
most one entry per target per batch. -/

/-- One `IntersectionObserverEntry` as the callback consumes it. -/
structure Entry where
  target : ℕ
  isIntersecting : Bool
  deriving Repr, DecidableEq

/-- Observer state: which ids are observed, how often each element got
the `visible` class added, how often `animateValue` started on it. -/
structure ObserverState where
  observed : Finset ℕ
  markCount : ℕ → ℕ
  animCount : ℕ → ℕ

/-- The body of `entries.forEach(entry => ...)`: on an intersecting
entry, add `visible`, start the counter when `data-count` is present,
and `observer.unobserve(entry.target)`. -/
def processEntry (hasCount : ℕ → Bool) (s : ObserverState) (e : Entry) :
    ObserverState :=
  if e.isIntersecting then
    { observed := s.observed.erase e.target
      markCount := fun x => if x = e.target then s.markCount x + 1 else s.markCount x
      animCount := fun x =>
        if x = e.target ∧ hasCount e.target then s.animCount x + 1 else s.animCount x }
  else s

/-- `revealCallback(entries, observer)`. -/
def revealCallback (hasCount : ℕ → Bool) (entries : List Entry)
    (s : ObserverState) : ObserverState :=
  entries.foldl (processEntry hasCount) s

/-- A whole run: the observer fires its callback once per batch. -/
def runBatches (hasCount : ℕ → Bool) :
    List (List Entry) → ObserverState → ObserverState
  | [], s => s
  | b :: bs, s => runBatches hasCount bs (revealCallback hasCount b s)

/-- A batch is deliverable when each entry targets a currently observed
element and no element appears twice (the browser reports at most one
entry per observed target per callback); the rest of the run must be
deliverable against the state the callback leaves behind. -/
def ValidBatches (hasCount : ℕ → Bool) :
    List (List Entry) → ObserverState → Prop
  | [], _ => True
  | b :: bs, s =>
      (∀ e ∈ b, e.target ∈ s.observed) ∧ (b.map Entry.target).Nodup ∧
        ValidBatches hasCount bs (revealCallback hasCount b s)

instance (hasCount : ℕ → Bool) (bs : List (List Entry)) (s : ObserverState) :
    Decidable (ValidBatches hasCount bs s) := by
  induction bs generalizing s with
  | nil => exact isTrue trivial
  | cons b bs ih =>
      have : Decidable ((∀ e ∈ b, e.target ∈ s.observed) ∧
          (b.map Entry.target).Nodup ∧
          ValidBatches hasCount bs (revealCallback hasCount b s)) :=
        @instDecidableAnd _ _ _ (@instDecidableAnd _ _ _ (ih _))
      exact this

/-- The page as `initScrollReveal` leaves it: a set of observed ids,
nothing yet marked or animated. -/
def initialObserver (targets : Finset ℕ) : ObserverState :=
  { observed := targets, markCount := fun _ => 0, animCount := fun _ => 0 }

/-- The reveal invariant: an element still under observation has never
been marked or animated, no element is ever marked or animated more
than once, and an element is animated at most as often as it is
marked. -/
def GoodObserver (s : ObserverState) : Prop :=
  ∀ e, (e ∈ s.observed → s.markCount e = 0 ∧ s.animCount e = 0) ∧
    s.markCount e ≤ 1 ∧ s.animCount e ≤ s.markCount e

/-- The numeric frame values the animation emits once anchored at a
start reference `s`: one value per frame, stopping on the first frame
whose progress reached 1. -/
def valTraceFrom (T : ℕ) (d s : ℚ) : List ℚ → List ℤ
  | [] => []
  | t :: ts =>
      if min ((t - s) / d) 1 < 1 then
        frameVal T d s t :: valTraceFrom T d s ts
      else
        [frameVal T d s t]

/-! ## Theorems -/

/-- Claim C3: starting from the initial Closed menu state, activating
the toggle n times leaves the menu Open exactly when n is odd (Closed
when n is even). -/
theorem toggleMenu_parity (n : ℕ) :
    menuOpen (toggleMenu^[n] initialMenu) = true ↔ Odd n := by
  have key : ∀ m : ℕ, ∀ s : MenuState,
      menuOpen (toggleMenu^[m] s) = ((menuOpen s) ^^ decide (Odd m)) := by
    intro m
    induction m with
    | zero => intro s; simp [Nat.odd_iff]
    | succ k ih =>
        intro s
        rw [Function.iterate_succ_apply]
        rw [ih (toggleMenu s)]
        have hodd : Odd (k + 1) ↔ ¬ Odd k := by
          constructor
          · intro h hk
            rcases h with ⟨a, ha⟩
            rcases hk with ⟨b, hb⟩
            omega
          · intro hk
            rcases Nat.even_or_odd k with he | ho
            · rcases he with ⟨a, ha⟩
              exact ⟨a, by omega⟩
            · exact absurd ho hk
        have : menuOpen (toggleMenu s) = !(menuOpen s) := rfl
        rw [this]
        by_cases h : Odd k
        · simp [h, hodd.mpr, hodd]
        · simp [h, hodd]
  rw [key n initialMenu]
  have : menuOpen initialMenu = false := rfl
  rw [this]
  by_cases h : Odd n <;> simp [h]

/-- Claim C6: after the scroll handler runs at offset s, the header
carries `header-scrolled` iff s > 50, and the handler is idempotent at
a fixed offset. -/
theorem handleScroll_spec (s : ℚ) (b : Bool) :
    (handleScroll s b = true ↔ s > 50) ∧
      handleScroll s (handleScroll s b) = handleScroll s b := by
  constructor
  · unfold handleScroll CONFIG
    split <;> simp_all
  · rfl

/-- The class being added by `classListAdd` is present afterwards. -/
theorem mem_classListAdd (c : String) (cs : List String) :
    c ∈ classListAdd c cs := by
  unfold classListAdd
  split
  · assumption
  · simp

/-- Claim C7: every child of a stagger group, at index i in document
order, is force-tagged `reveal-up`, given transition delay exactly
i * 100 ms (strictly increasing in i), and registered with the
observer. -/
theorem staggerInit_spec (children : List StaggerChild) :
    (staggerInit children).length = children.length ∧
    (∀ i (hi : i < (staggerInit children).length),
      "reveal-up" ∈ ((staggerInit children).get ⟨i, hi⟩).1.classes ∧
      ((staggerInit children).get ⟨i, hi⟩).1.transitionDelay = i * 100 ∧
      ((staggerInit children).get ⟨i, hi⟩).2 = true) ∧
    (∀ i j (hi : i < (staggerInit children).length)
        (hj : j < (staggerInit children).length), i < j →
      ((staggerInit children).get ⟨i, hi⟩).1.transitionDelay <
        ((staggerInit children).get ⟨j, hj⟩).1.transitionDelay) := by
  have hlen : (staggerInit children).length = children.length := by
    unfold staggerInit
    rw [List.length_map, List.enum_length]
  have hget : ∀ i (hi : i < (staggerInit children).length),
      (staggerInit children).get ⟨i, hi⟩ =
        staggerStep i (children.get ⟨i, by rw [hlen] at hi; exact hi⟩) := by
    intro i hi
    have hc : i < children.length := by rw [← hlen]; exact hi
    have hi2 : i < children.enum.length := by rw [List.enum_length]; exact hc
    show (children.enum.map fun p => staggerStep p.1 p.2).get ⟨i, _⟩ = _
    rw [List.get_eq_getElem, List.getElem_map, List.getElem_enum]
    rw [List.get_eq_getElem]
  refine ⟨hlen, ?_, ?_⟩
  · intro i hi
    rw [hget i hi]
    unfold staggerStep
    refine ⟨mem_classListAdd _ _, rfl, rfl⟩
  · intro i j hi hj hij
    rw [hget i hi, hget j hj]
    unfold staggerStep
    simp only
    show i * CONFIG.staggerDelay < j * CONFIG.staggerDelay
    have h100 : CONFIG.staggerDelay = 100 := rfl
    rw [h100]
    omega

/-- Witness for `staggerInit_spec`: in a two-child grid the second
child's delay is 1 * 100 ms. -/
theorem staggerInit_spec_witness :
    ((staggerInit [{ classes := ["card"], transitionDelay := 0 },
        { classes := [], transitionDelay := 0 }]).get
      ⟨1, by decide⟩).1.transitionDelay = 1 * 100 :=
  ((staggerInit_spec [{ classes := ["card"], transitionDelay := 0 },
      { classes := [], transitionDelay := 0 }]).2.1 1 (by decide)).2.1

/-- Claim C9: a unit whose required DOM anchors are absent installs no
listener, performs no DOM mutation, logs nothing and raises nothing:
its init returns the page unchanged, so the other units see the same
page they would have seen anyway. -/
theorem init_missing_anchor_noop (p q : PageState)
    (hh : p.headerPresent = false)
    (hm : q.menuBtnPresent = false ∨ q.navListPresent = false) :
    initStickyHeader p = p ∧ initMobileMenu q = q := by
  constructor
  · unfold initStickyHeader
    rw [hh]
    simp
  · unfold initMobileMenu
    rcases hm with h | h <;> rw [h] <;> simp

/-- Witness for `init_missing_anchor_noop` at a concrete page. -/
theorem init_missing_anchor_noop_witness :
    initStickyHeader
        { headerPresent := false, menuBtnPresent := false,
          navListPresent := true, listeners := [], domMutations := 0,
          consoleLines := [] } =
      { headerPresent := false, menuBtnPresent := false,
        navListPresent := true, listeners := [], domMutations := 0,
        consoleLines := [] } :=
  (init_missing_anchor_noop
      { headerPresent := false, menuBtnPresent := false,
        navListPresent := true, listeners := [], domMutations := 0,
        consoleLines := [] }
      { headerPresent := false, menuBtnPresent := false,
        navListPresent := true, listeners := [], domMutations := 0,
        consoleLines := [] }
      rfl (Or.inl rfl)).1

/-- One deliverable batch preserves the reveal invariant. -/
theorem revealCallback_good (hasCount : ℕ → Bool) :
    ∀ (b : List Entry) (s : ObserverState), GoodObserver s →
      (∀ e ∈ b, e.target ∈ s.observed) → (b.map Entry.target).Nodup →
      GoodObserver (revealCallback hasCount b s) := by
  intro b
  induction b with
  | nil => intro s hs _ _; exact hs
  | cons e b ih =>
      intro s hs hmem hnd
      have hnd2 : ((e :: b).map Entry.target).Nodup := hnd
      rw [List.map_cons, List.nodup_cons] at hnd2
      show GoodObserver (revealCallback hasCount b (processEntry hasCount s e))
      by_cases hint : e.isIntersecting
      · have hobs : e.target ∈ s.observed := hmem e (List.mem_cons_self e b)
        have hzero := (hs e.target).1 hobs
        have hproc : processEntry hasCount s e =
            { observed := s.observed.erase e.target
              markCount := fun x =>
                if x = e.target then s.markCount x + 1 else s.markCount x
              animCount := fun x =>
                if x = e.target ∧ hasCount e.target then s.animCount x + 1
                else s.animCount x } := by
          unfold processEntry
          rw [if_pos hint]
        apply ih
        · rw [hproc]
          intro x
          have hm0 : s.markCount e.target = 0 := hzero.1
          have ha0 : s.animCount e.target = 0 := hzero.2
          refine ⟨?_, ?_, ?_⟩
          · intro hx
            rcases Finset.mem_erase.mp hx with ⟨hne, hxs⟩
            have hx0 := (hs x).1 hxs
            show (if x = e.target then s.markCount x + 1 else s.markCount x) = 0 ∧
              (if x = e.target ∧ hasCount e.target then s.animCount x + 1
                else s.animCount x) = 0
            rw [if_neg hne, if_neg (fun hc => hne hc.1)]
            exact hx0
          · show (if x = e.target then s.markCount x + 1 else s.markCount x) ≤ 1
            by_cases hx : x = e.target
            · rw [if_pos hx, hx, hm0]
            · rw [if_neg hx]
              exact (hs x).2.1
          · show (if x = e.target ∧ hasCount e.target then s.animCount x + 1
                else s.animCount x) ≤
              (if x = e.target then s.markCount x + 1 else s.markCount x)
            by_cases hx : x = e.target
            · rw [if_pos hx]
              by_cases hc : hasCount e.target = true
              · rw [if_pos ⟨hx, hc⟩, hx, hm0, ha0]
              · rw [if_neg (fun hh => hc hh.2), hx, ha0]
                exact Nat.zero_le _
            · rw [if_neg hx, if_neg (fun hc => hx hc.1)]
              exact (hs x).2.2
        · intro f hf
          rw [hproc]
          show f.target ∈ s.observed.erase e.target
          rw [Finset.mem_erase]
          refine ⟨?_, hmem f (List.mem_cons_of_mem e hf)⟩
          intro hfe
          exact hnd2.1 (hfe ▸ List.mem_map_of_mem Entry.target hf)
        · exact hnd2.2
      · have hproc : processEntry hasCount s e = s := by
          unfold processEntry
          rw [if_neg hint]
        rw [hproc]
        exact ih s hs (fun f hf => hmem f (List.mem_cons_of_mem e hf)) hnd2.2

/-- Any deliverable run of callbacks preserves the reveal invariant. -/
theorem runBatches_good (hasCount : ℕ → Bool) :
    ∀ (bs : List (List Entry)) (s : ObserverState), GoodObserver s →
      ValidBatches hasCount bs s → GoodObserver (runBatches hasCount bs s) := by
  intro bs
  induction bs with
  | nil => intro s hs _; exact hs
  | cons b bs ih =>
      intro s hs hv
      exact ih _ (revealCallback_good hasCount b s hs hv.1 hv.2.1) hv.2.2

/-- Claim C2: over any deliverable sequence of observer callbacks from
a freshly initialised observer, each element receives the `visible`
marker at most once and is animated at most once, and once marked it
is no longer observed (it was deregistered in the very callback that
marked it), so it can never be re-marked or re-animated. -/
theorem revealCallback_once (hasCount : ℕ → Bool) (targets : Finset ℕ)
    (bs : List (List Entry))
    (hv : ValidBatches hasCount bs (initialObserver targets)) :
    ∀ e, (runBatches hasCount bs (initialObserver targets)).markCount e ≤ 1 ∧
      (runBatches hasCount bs (initialObserver targets)).animCount e ≤ 1 ∧
      (1 ≤ (runBatches hasCount bs (initialObserver targets)).markCount e →
        e ∉ (runBatches hasCount bs (initialObserver targets)).observed) := by
  have hinit : GoodObserver (initialObserver targets) := by
    intro e
    exact ⟨fun _ => ⟨rfl, rfl⟩, Nat.zero_le 1, Nat.le_refl 0⟩
  have hfin := runBatches_good hasCount bs (initialObserver targets) hinit hv
  intro e
  refine ⟨(hfin e).2.1, Nat.le_trans (hfin e).2.2 (hfin e).2.1, ?_⟩
  intro hmark hobs
  have := ((hfin e).1 hobs).1
  omega

/-- Witness for `revealCallback_once`: two observed elements revealed
in two successive batches, the first re-reported (harmlessly rejected)
structure never arises because it is deregistered. -/
theorem revealCallback_once_witness :
    (runBatches (fun e => e == 1) [[⟨1, true⟩], [⟨2, true⟩]]
        (initialObserver {1, 2})).markCount 1 ≤ 1 :=
  (revealCallback_once (fun e => e == 1) {1, 2} [[⟨1, true⟩], [⟨2, true⟩]]
      (by decide) 1).1

/-- Claim C8: a click on a play button with no pending timer replaces
its label by the loading indicator; when the 800 ms timer fires, the
label again equals the pre-click label and the placeholder alert has
fired exactly once more. -/
theorem videoClick_restore (L : String) (a : ℕ) :
    (clickPlay ⟨L, a, []⟩).label = loadingLabel ∧
      videoRun [VideoEvent.click, VideoEvent.fire] ⟨L, a, []⟩ =
        ⟨L, a + 1, []⟩ :=
  ⟨rfl, rfl⟩

/-! #### Counter animation lemmas -/

/-- The configured animation duration is 2000 ms. -/
theorem counterDuration_eq : CONFIG.counterDuration = 2000 := rfl

/-- The first frame (or any frame taken while `startTimestamp` is still
falsy) anchors the start at its own timestamp and displays 0. -/
theorem step_falsy (T : ℕ) (suffix : String) (d t : ℚ) (st : CounterState)
    (h : jsFalsy st.startTimestamp = true) :
    step T suffix d t st =
      { startTimestamp := some t, innerHTML := toString (0 : ℤ) ++ suffix,
        shownVal := 0, done := false } := by
  simp only [step, h, if_true]
  rw [sub_self, zero_div, min_eq_left zero_le_one]
  norm_num

/-- A frame taken with a non-falsy start `s` and eased progress below 1
displays the floored eased value and keeps animating. -/
theorem step_clean_lt (T : ℕ) (suffix : String) (d t s : ℚ)
    (st : CounterState) (hs : st.startTimestamp = some s) (hne : s ≠ 0)
    (hlt : min ((t - s) / d) 1 < 1) :
    step T suffix d t st =
      { startTimestamp := some s
        innerHTML :=
          toString (⌊(1 - (1 - min ((t - s) / d) 1) ^ 4) * (T : ℚ)⌋ : ℤ) ++ suffix
        shownVal := ⌊(1 - (1 - min ((t - s) / d) 1) ^ 4) * (T : ℚ)⌋
        done := false } := by
  have hf : jsFalsy (some s) = false := by
    simp [jsFalsy, hne]
  simp only [step, hs, hf, Bool.false_eq_true, if_false, Option.getD_some]
  rw [if_pos hlt]

/-- A frame taken with a non-falsy start `s` whose progress has reached
1 takes the `else` branch: the text is forced to the exact literal
target and no further frame is requested. -/
theorem step_clean_ge (T : ℕ) (suffix : String) (d t s : ℚ)
    (st : CounterState) (hs : st.startTimestamp = some s) (hne : s ≠ 0)
    (hge : ¬ min ((t - s) / d) 1 < 1) :
    step T suffix d t st =
      { startTimestamp := some s
        innerHTML := toString T ++ suffix
        shownVal := (T : ℤ)
        done := true } := by
  have hf : jsFalsy (some s) = false := by
    simp [jsFalsy, hne]
  simp only [step, hs, hf, Bool.false_eq_true, if_false, Option.getD_some]
  rw [if_neg hge]

/-- Unfolding `animateRun` on an unfinished state. -/
theorem animateRun_cons (T : ℕ) (suffix : String) (d t : ℚ) (ts : List ℚ)
    (st : CounterState) (h : st.done = false) :
    animateRun T suffix d (t :: ts) st =
      animateRun T suffix d ts (step T suffix d t st) := by
  conv_lhs => unfold animateRun
  rw [h]
  simp

/-- Unfolding `animateTraceHTML` on an unfinished state. -/
theorem animateTraceHTML_cons (T : ℕ) (suffix : String) (d t : ℚ)
    (ts : List ℚ) (st : CounterState) (h : st.done = false) :
    animateTraceHTML T suffix d (t :: ts) st =
      (step T suffix d t st).innerHTML ::
        animateTraceHTML T suffix d ts (step T suffix d t st) := by
  conv_lhs => unfold animateTraceHTML
  rw [h]
  simp

/-- Unfolding `animateTraceVal` on an unfinished state. -/
theorem animateTraceVal_cons (T : ℕ) (suffix : String) (d t : ℚ)
    (ts : List ℚ) (st : CounterState) (h : st.done = false) :
    animateTraceVal T suffix d (t :: ts) st =
      (step T suffix d t st).shownVal ::
        animateTraceVal T suffix d ts (step T suffix d t st) := by
  conv_lhs => unfold animateTraceVal
  rw [h]
  simp

/-- Once the animation is done no further frame changes the state. -/
theorem animateRun_done (T : ℕ) (suffix : String) (d : ℚ) (ts : List ℚ)
    (st : CounterState) (h : st.done = true) :
    animateRun T suffix d ts st = st := by
  cases ts with
  | nil => rfl
  | cons t ts =>
      unfold animateRun
      rw [h]
      simp

/-- Once the animation is done no further frame is traced. -/
theorem animateTraceHTML_done (T : ℕ) (suffix : String) (d : ℚ)
    (ts : List ℚ) (st : CounterState) (h : st.done = true) :
    animateTraceHTML T suffix d ts st = [] := by
  cases ts with
  | nil => rfl
  | cons t ts =>
      unfold animateTraceHTML
      rw [h]
      simp

/-- Once the animation is done no further value is traced. -/
theorem animateTraceVal_done (T : ℕ) (suffix : String) (d : ℚ)
    (ts : List ℚ) (st : CounterState) (h : st.done = true) :
    animateTraceVal T suffix d ts st = [] := by
  cases ts with
  | nil => rfl
  | cons t ts =>
      unfold animateTraceVal
      rw [h]
      simp

/-- From a cleanly anchored state, as soon as some remaining frame lies
at or past `start + duration`, the run finishes with the exact literal
text `target ++ suffix`. -/
theorem run_clean_done (T : ℕ) (suffix : String) :
    ∀ (ts : List ℚ) (st : CounterState) (s : ℚ),
      st.startTimestamp = some s → s ≠ 0 → st.done = false →
      (∃ t ∈ ts, s + CONFIG.counterDuration ≤ t) →
      (animateRun T suffix CONFIG.counterDuration ts st).done = true ∧
        (animateRun T suffix CONFIG.counterDuration ts st).innerHTML =
          toString T ++ suffix := by
  intro ts
  induction ts with
  | nil =>
      intro st s _ _ _ hex
      simp at hex
  | cons t ts ih =>
      intro st s hs hne hdone hex
      rw [animateRun_cons T suffix CONFIG.counterDuration t ts st hdone]
      by_cases hlt : min ((t - s) / CONFIG.counterDuration) 1 < 1
      · rw [step_clean_lt T suffix CONFIG.counterDuration t s st hs hne hlt]
        apply ih _ s rfl hne rfl
        rcases hex with ⟨t0, ht0, hle⟩
        rcases List.mem_cons.mp ht0 with h | h
        · exfalso
          subst h
          have h2 : (1 : ℚ) ≤ (t0 - s) / CONFIG.counterDuration := by
            rw [counterDuration_eq] at hle ⊢
            rw [le_div_iff₀ (by norm_num : (0 : ℚ) < 2000)]
            linarith
          rw [min_eq_right h2] at hlt
          exact lt_irrefl 1 hlt
        · exact ⟨t0, h, hle⟩
      · rw [step_clean_ge T suffix CONFIG.counterDuration t s st hs hne hlt]
        rw [animateRun_done T suffix CONFIG.counterDuration ts _ rfl]
        exact ⟨rfl, rfl⟩

/-- Claim C1: for a counter element with a non-negative integer target
and a suffix, every strictly increasing frame sequence that reaches the
animation's start reference plus the 2000 ms duration makes the
animation terminate with `innerHTML` exactly the literal target
followed by the suffix — in particular the final text is the same for
every such frame sequence. -/
theorem animateValue_terminates_exact (target : ℕ) (suffix : String)
    (ts : List ℚ) (hinc : ts.Chain' (· < ·))
    (hreach : ∃ t ∈ ts, effStart ts + CONFIG.counterDuration ≤ t) :
    (animateRun target suffix CONFIG.counterDuration ts initialCounter).done = true ∧
      (animateRun target suffix CONFIG.counterDuration ts initialCounter).innerHTML =
        toString target ++ suffix := by
  cases ts with
  | nil => simp at hreach
  | cons t0 rest =>
      rw [animateRun_cons target suffix CONFIG.counterDuration t0 rest
        initialCounter rfl]
      rw [step_falsy target suffix CONFIG.counterDuration t0 initialCounter rfl]
      by_cases h0 : t0 = 0
      · subst h0
        cases rest with
        | nil =>
            exfalso
            rcases hreach with ⟨t, ht, hle⟩
            rw [List.mem_singleton] at ht
            subst ht
            rw [counterDuration_eq] at hle
            simp [effStart] at hle
            linarith
        | cons t1 rest2 =>
            have ht1pos : (0 : ℚ) < t1 := (List.chain'_cons.mp hinc).1
            rw [animateRun_cons target suffix CONFIG.counterDuration t1 rest2
              { startTimestamp := some 0,
                innerHTML := toString (0 : ℤ) ++ suffix,
                shownVal := 0, done := false } rfl]
            rw [step_falsy target suffix CONFIG.counterDuration t1
              { startTimestamp := some 0,
                innerHTML := toString (0 : ℤ) ++ suffix,
                shownVal := 0, done := false } rfl]
            apply run_clean_done target suffix rest2 _ t1 rfl (ne_of_gt ht1pos) rfl
            rcases hreach with ⟨t, ht, hle⟩
            have heff : effStart (0 :: t1 :: rest2) = t1 := by
              simp [effStart]
            rw [heff] at hle
            rw [counterDuration_eq] at hle
            rcases List.mem_cons.mp ht with h | h
            · exfalso
              subst h
              linarith
            · rcases List.mem_cons.mp h with h2 | h2
              · exfalso
                subst h2
                linarith
              · exact ⟨t, h2, by rw [counterDuration_eq]; exact hle⟩
      · apply run_clean_done target suffix rest _ t0 rfl h0 rfl
        rcases hreach with ⟨t, ht, hle⟩
        have heff : effStart (t0 :: rest) = t0 := by
          simp [effStart, h0]
        rw [heff, counterDuration_eq] at hle
        rcases List.mem_cons.mp ht with h | h
        · exfalso
          subst h
          linarith
        · exact ⟨t, h, by rw [counterDuration_eq]; exact hle⟩

/-- Witness for `animateValue_terminates_exact`: `data-count="50"`,
`data-suffix="%"`, frames at 16, 1000 and 2500 ms. -/
theorem animateValue_terminates_exact_witness :
    (animateRun 50 "%" CONFIG.counterDuration [16, 1000, 2500]
        initialCounter).innerHTML = "50%" := by
  have h := animateValue_terminates_exact 50 "%" [16, 1000, 2500]
    (by simp [List.chain'_cons]; norm_num)
    ⟨2500, by simp, by norm_num [effStart, CONFIG]⟩
  rw [h.2]
  rfl

/-- Unfolding `specTrace` while the clamped progress is below 1. -/
theorem specTrace_cons_lt (T : ℕ) (suffix : String) (d s t : ℚ)
    (ts : List ℚ) (h : max 0 (min ((t - s) / d) 1) < 1) :
    specTrace T suffix d s (t :: ts) =
      specFrame T suffix d s t :: specTrace T suffix d s ts := by
  conv_lhs => unfold specTrace
  rw [if_pos h]

/-- Unfolding `specTrace` on the frame where progress reaches 1. -/
theorem specTrace_cons_ge (T : ℕ) (suffix : String) (d s t : ℚ)
    (ts : List ℚ) (h : ¬ max 0 (min ((t - s) / d) 1) < 1) :
    specTrace T suffix d s (t :: ts) = [specFrame T suffix d s t] := by
  conv_lhs => unfold specTrace
  rw [if_neg h]

/-- The spec formula displays 0 on the frame at the start reference. -/
theorem specFrame_self (T : ℕ) (suffix : String) (d s : ℚ) :
    specFrame T suffix d s s = toString (0 : ℤ) ++ suffix := by
  simp only [specFrame]
  rw [sub_self, zero_div, min_eq_left zero_le_one, max_self]
  rw [if_pos (by norm_num : (0 : ℚ) < 1)]
  norm_num

/-- From a cleanly anchored unfinished state, the frames the code
writes agree exactly, frame by frame, with the spec formula anchored at
the same start reference. -/
theorem traceHTML_clean (T : ℕ) (suffix : String) :
    ∀ (ts : List ℚ) (st : CounterState) (s : ℚ),
      st.startTimestamp = some s → s ≠ 0 → st.done = false →
      (∀ t ∈ ts, s ≤ t) →
      animateTraceHTML T suffix CONFIG.counterDuration ts st =
        specTrace T suffix CONFIG.counterDuration s ts := by
  intro ts
  induction ts with
  | nil => intro st s _ _ _ _; rfl
  | cons t ts ih =>
      intro st s hs hne hdone hmem
      have hst : s ≤ t := hmem t (List.mem_cons_self t ts)
      have hp0 : (0 : ℚ) ≤ min ((t - s) / CONFIG.counterDuration) 1 := by
        apply le_min _ zero_le_one
        apply div_nonneg (by linarith)
        rw [counterDuration_eq]
        norm_num
      have hmax : max 0 (min ((t - s) / CONFIG.counterDuration) 1) =
          min ((t - s) / CONFIG.counterDuration) 1 := max_eq_right hp0
      rw [animateTraceHTML_cons T suffix CONFIG.counterDuration t ts st hdone]
      by_cases hlt : min ((t - s) / CONFIG.counterDuration) 1 < 1
      · rw [step_clean_lt T suffix CONFIG.counterDuration t s st hs hne hlt]
        rw [specTrace_cons_lt T suffix CONFIG.counterDuration s t ts
          (by rw [hmax]; exact hlt)]
        congr 1
        · simp only [specFrame]
          rw [hmax, if_pos hlt]
        · exact ih _ s rfl hne rfl fun x hx => hmem x (List.mem_cons_of_mem t hx)
      · rw [step_clean_ge T suffix CONFIG.counterDuration t s st hs hne hlt]
        rw [animateTraceHTML_done T suffix CONFIG.counterDuration ts _ rfl]
        rw [specTrace_cons_ge T suffix CONFIG.counterDuration s t ts
          (by rw [hmax]; exact hlt)]
        congr 1
        simp only [specFrame]
        rw [hmax, if_neg hlt]

/-- Counterexample to claim C4 as stated: with frames at 0 and 1000 ms
and `data-count="50"`, the code displays 0 on the second frame (a first
frame timestamp of exactly 0 is falsy for `!startTimestamp`, so the
start reference is re-anchored to 1000), while the claimed formula with
`start` equal to the first frame's timestamp demands
`floor((1 - (1 - 1000/2000)^4) * 50) = 46`. -/
theorem animateValue_formula_counterexample :
    animateTraceVal 50 "" CONFIG.counterDuration [0, 1000] initialCounter =
        [0, 0] ∧
      (⌊(1 - (1 - max 0 (min ((1000 - 0) / CONFIG.counterDuration) 1)) ^ 4) *
          (50 : ℚ)⌋ : ℤ) = 46 ∧
      (0 : ℤ) ≠ 46 := by
  refine ⟨?_, ?_, by decide⟩
  · rw [animateTraceVal_cons 50 "" CONFIG.counterDuration 0 [1000]
      initialCounter rfl]
    rw [step_falsy 50 "" CONFIG.counterDuration 0 initialCounter rfl]
    rw [animateTraceVal_cons 50 "" CONFIG.counterDuration 1000 []
      { startTimestamp := some 0, innerHTML := toString (0 : ℤ) ++ "",
        shownVal := 0, done := false } rfl]
    rw [step_falsy 50 "" CONFIG.counterDuration 1000
      { startTimestamp := some 0, innerHTML := toString (0 : ℤ) ++ "",
        shownVal := 0, done := false } rfl]
    rfl
  · rw [counterDuration_eq]
    have h1 : ((1000 : ℚ) - 0) / 2000 = 1 / 2 := by norm_num
    rw [h1]
    have h2 : min ((1 : ℚ) / 2) 1 = 1 / 2 := min_eq_left (by norm_num)
    rw [h2]
    have h3 : max (0 : ℚ) (1 / 2) = 1 / 2 := max_eq_right (by norm_num)
    rw [h3]
    have h4 : (1 - (1 - (1 : ℚ) / 2) ^ 4) * 50 = 375 / 8 := by norm_num
    rw [h4]
    rw [Int.floor_eq_iff]
    norm_num

/-- Claim C4, amended: provided the first frame's timestamp is nonzero
(the code treats a timestamp of exactly 0 as "not yet started" and
re-anchors on the next frame), every frame of the animation displays
exactly the spec formula `floor((1 - (1-p)^4) * target)` with
`p = clamp((now - start)/2000, 0, 1)` and `start` the first frame's
timestamp, the final frame being forced to the literal
`target + suffix`. -/
theorem animateValue_matches_spec (target : ℕ) (suffix : String)
    (t0 : ℚ) (ts : List ℚ) (h0 : t0 ≠ 0)
    (hinc : (t0 :: ts).Chain' (· < ·)) :
    animateTraceHTML target suffix CONFIG.counterDuration (t0 :: ts)
        initialCounter =
      specTrace target suffix CONFIG.counterDuration t0 (t0 :: ts) := by
  have hmem : ∀ t ∈ ts, t0 ≤ t := by
    have hp : (t0 :: ts).Pairwise (· < ·) := List.chain'_iff_pairwise.mp hinc
    intro t ht
    exact le_of_lt ((List.pairwise_cons.mp hp).1 t ht)
  rw [animateTraceHTML_cons target suffix CONFIG.counterDuration t0 ts
    initialCounter rfl]
  rw [step_falsy target suffix CONFIG.counterDuration t0 initialCounter rfl]
  have hc : max 0 (min ((t0 - t0) / CONFIG.counterDuration) 1) < 1 := by
    rw [sub_self, zero_div, min_eq_left zero_le_one, max_self]
    norm_num
  rw [specTrace_cons_lt target suffix CONFIG.counterDuration t0 t0 ts hc]
  congr 1
  · rw [specFrame_self]
  · exact traceHTML_clean target suffix ts _ t0 rfl h0 rfl hmem

/-- Witness for `animateValue_matches_spec` at frames 16, 1016 and
2016 ms with `data-count="50"`, `data-suffix="%"`. -/
theorem animateValue_matches_spec_witness :
    animateTraceHTML 50 "%" CONFIG.counterDuration [16, 1016, 2016]
        initialCounter =
      specTrace 50 "%" CONFIG.counterDuration 16 [16, 1016, 2016] :=
  animateValue_matches_spec 50 "%" 16 [1016, 2016] (by norm_num)
    (by simp [List.chain'_cons]; norm_num)

/-- A frame's displayed value is never negative. -/
theorem frameVal_nonneg (T : ℕ) (d s t : ℚ) (hd : 0 < d) (hst : s ≤ t) :
    0 ≤ frameVal T d s t := by
  simp only [frameVal]
  have hq0 : (0 : ℚ) ≤ min ((t - s) / d) 1 :=
    le_min (div_nonneg (by linarith) hd.le) zero_le_one
  have hq1 : min ((t - s) / d) 1 ≤ 1 := min_le_right _ _
  split
  · apply Int.floor_nonneg.mpr
    apply mul_nonneg _ (Nat.cast_nonneg T)
    have h4 : (1 - min ((t - s) / d) 1) ^ 4 ≤ 1 :=
      pow_le_one₀ (by linarith) (by linarith)
    linarith
  · exact Int.natCast_nonneg T

/-- A frame's displayed value never exceeds the target. -/
theorem frameVal_le (T : ℕ) (d s t : ℚ) (hd : 0 < d) (hst : s ≤ t) :
    frameVal T d s t ≤ (T : ℤ) := by
  simp only [frameVal]
  have hq0 : (0 : ℚ) ≤ min ((t - s) / d) 1 :=
    le_min (div_nonneg (by linarith) hd.le) zero_le_one
  have hq1 : min ((t - s) / d) 1 ≤ 1 := min_le_right _ _
  split
  · have h4 : (0 : ℚ) ≤ (1 - min ((t - s) / d) 1) ^ 4 :=
      pow_nonneg (by linarith) 4
    have hmul : (0 : ℚ) ≤ (1 - min ((t - s) / d) 1) ^ 4 * (T : ℚ) :=
      mul_nonneg h4 (Nat.cast_nonneg T)
    have h1 : (1 - (1 - min ((t - s) / d) 1) ^ 4) * (T : ℚ) ≤ (T : ℚ) := by
      nlinarith [Nat.cast_nonneg (α := ℚ) T]
    calc ⌊(1 - (1 - min ((t - s) / d) 1) ^ 4) * (T : ℚ)⌋
        ≤ ⌊(T : ℚ)⌋ := Int.floor_le_floor h1
      _ = (T : ℤ) := Int.floor_natCast T
  · exact le_refl _

/-- Within one anchored animation, later frames display values at least
as large as earlier ones. -/
theorem frameVal_mono (T : ℕ) (d s t t2 : ℚ) (hd : 0 < d) (hst : s ≤ t)
    (htt : t ≤ t2) : frameVal T d s t ≤ frameVal T d s t2 := by
  have hpq : min ((t - s) / d) 1 ≤ min ((t2 - s) / d) 1 := by
    apply min_le_min _ (le_refl 1)
    apply div_le_div_of_nonneg_right (by linarith) hd.le
  by_cases h2 : min ((t2 - s) / d) 1 < 1
  · have h1 : min ((t - s) / d) 1 < 1 := lt_of_le_of_lt hpq h2
    have hq0 : (0 : ℚ) ≤ min ((t - s) / d) 1 :=
      le_min (div_nonneg (by linarith) hd.le) zero_le_one
    have hq1 : min ((t2 - s) / d) 1 ≤ 1 := min_le_right _ _
    simp only [frameVal]
    rw [if_pos h1, if_pos h2]
    apply Int.floor_le_floor
    apply mul_le_mul_of_nonneg_right _ (Nat.cast_nonneg T)
    have hpow : (1 - min ((t2 - s) / d) 1) ^ 4 ≤ (1 - min ((t - s) / d) 1) ^ 4 :=
      pow_le_pow_left₀ (by linarith) (by linarith) 4
    linarith
  · have heq : frameVal T d s t2 = (T : ℤ) := by
      simp only [frameVal]
      rw [if_neg h2]
    rw [heq]
    exact frameVal_le T d s t hd hst

/-- Unfolding `valTraceFrom` while progress stays below 1. -/
theorem valTraceFrom_cons_lt (T : ℕ) (d s t : ℚ) (ts : List ℚ)
    (h : min ((t - s) / d) 1 < 1) :
    valTraceFrom T d s (t :: ts) =
      frameVal T d s t :: valTraceFrom T d s ts := by
  conv_lhs => unfold valTraceFrom
  rw [if_pos h]

/-- Unfolding `valTraceFrom` on the frame where progress reaches 1. -/
theorem valTraceFrom_cons_ge (T : ℕ) (d s t : ℚ) (ts : List ℚ)
    (h : ¬ min ((t - s) / d) 1 < 1) :
    valTraceFrom T d s (t :: ts) = [frameVal T d s t] := by
  conv_lhs => unfold valTraceFrom
  rw [if_neg h]

/-- `valTraceFrom` always starts with the head frame's value. -/
theorem valTraceFrom_head (T : ℕ) (d s t : ℚ) (ts : List ℚ) :
    (valTraceFrom T d s (t :: ts)).head? = some (frameVal T d s t) := by
  by_cases h : min ((t - s) / d) 1 < 1
  · rw [valTraceFrom_cons_lt T d s t ts h]
    rfl
  · rw [valTraceFrom_cons_ge T d s t ts h]
    rfl

/-- Every value in an anchored trace lies in `[0, target]`. -/
theorem valTraceFrom_bounds (T : ℕ) (d s : ℚ) (hd : 0 < d) :
    ∀ (ts : List ℚ), (∀ t ∈ ts, s ≤ t) →
      ∀ v ∈ valTraceFrom T d s ts, 0 ≤ v ∧ v ≤ (T : ℤ) := by
  intro ts
  induction ts with
  | nil =>
      intro _ v hv
      simp [valTraceFrom] at hv
  | cons t ts ih =>
      intro hmem v hv
      have hst : s ≤ t := hmem t (List.mem_cons_self t ts)
      conv at hv => rw [valTraceFrom]
      split at hv
      · rcases List.mem_cons.mp hv with h | h
        · subst h
          exact ⟨frameVal_nonneg T d s t hd hst, frameVal_le T d s t hd hst⟩
        · exact ih (fun x hx => hmem x (List.mem_cons_of_mem t hx)) v h
      · rw [List.mem_singleton] at hv
        subst hv
        exact ⟨frameVal_nonneg T d s t hd hst, frameVal_le T d s t hd hst⟩

/-- An anchored trace over strictly increasing frames is non-decreasing. -/
theorem valTraceFrom_chain (T : ℕ) (d s : ℚ) (hd : 0 < d) :
    ∀ (ts : List ℚ), (∀ t ∈ ts, s ≤ t) → ts.Chain' (· < ·) →
      (valTraceFrom T d s ts).Chain' (· ≤ ·) := by
  intro ts
  induction ts with
  | nil =>
      intro _ _
      simp [valTraceFrom]
  | cons t ts ih =>
      intro hmem hchain
      have hst : s ≤ t := hmem t (List.mem_cons_self t ts)
      by_cases hlt : min ((t - s) / d) 1 < 1
      · rw [valTraceFrom_cons_lt T d s t ts hlt]
        rw [List.chain'_cons']
        constructor
        · intro y hy
          cases ts with
          | nil => simp [valTraceFrom] at hy
          | cons t2 ts2 =>
              rw [valTraceFrom_head] at hy
              rw [Option.mem_def, Option.some_inj] at hy
              subst hy
              have ht2 : t ≤ t2 := le_of_lt (List.chain'_cons.mp hchain).1
              exact frameVal_mono T d s t t2 hd hst ht2
        · exact ih (fun x hx => hmem x (List.mem_cons_of_mem t hx))
            hchain.tail
      · rw [valTraceFrom_cons_ge T d s t ts hlt]
        simp

/-- From a cleanly anchored unfinished state, the numeric values the
code displays are exactly the anchored frame values. -/
theorem traceVal_clean (T : ℕ) (suffix : String) :
    ∀ (ts : List ℚ) (st : CounterState) (s : ℚ),
      st.startTimestamp = some s → s ≠ 0 → st.done = false →
      animateTraceVal T suffix CONFIG.counterDuration ts st =
        valTraceFrom T CONFIG.counterDuration s ts := by
  intro ts
  induction ts with
  | nil => intro st s _ _ _; rfl
  | cons t ts ih =>
      intro st s hs hne hdone
      rw [animateTraceVal_cons T suffix CONFIG.counterDuration t ts st hdone]
      by_cases hlt : min ((t - s) / CONFIG.counterDuration) 1 < 1
      · rw [step_clean_lt T suffix CONFIG.counterDuration t s st hs hne hlt]
        conv_rhs => unfold valTraceFrom
        rw [if_pos hlt]
        congr 1
        · simp only [frameVal]
          rw [if_pos hlt]
        · exact ih _ s rfl hne rfl
      · rw [step_clean_ge T suffix CONFIG.counterDuration t s st hs hne hlt]
        rw [animateTraceVal_done T suffix CONFIG.counterDuration ts _ rfl]
        conv_rhs => unfold valTraceFrom
        rw [if_neg hlt]
        congr 1
        simp only [frameVal]
        rw [if_neg hlt]

/-- Claim C5: for every non-negative integer target and strictly
increasing frame timestamps, the sequence of numeric values the counter
displays is non-decreasing and stays within `[0, target]`. -/
theorem counter_monotone_bounded (target : ℕ) (suffix : String)
    (ts : List ℚ) (hinc : ts.Chain' (· < ·)) :
    (animateTraceVal target suffix CONFIG.counterDuration ts
        initialCounter).Chain' (· ≤ ·) ∧
      ∀ v ∈ animateTraceVal target suffix CONFIG.counterDuration ts
          initialCounter, 0 ≤ v ∧ v ≤ (target : ℤ) := by
  have hdpos : (0 : ℚ) < CONFIG.counterDuration := by
    rw [counterDuration_eq]
    norm_num
  cases ts with
  | nil => exact ⟨List.chain'_nil, by intro v hv; simp [animateTraceVal] at hv⟩
  | cons t0 rest =>
      rw [animateTraceVal_cons target suffix CONFIG.counterDuration t0 rest
        initialCounter rfl]
      rw [step_falsy target suffix CONFIG.counterDuration t0 initialCounter rfl]
      by_cases h0 : t0 = 0
      · subst h0
        cases rest with
        | nil =>
            refine ⟨?_, ?_⟩
            · simp [animateTraceVal]
            · intro v hv
              simp [animateTraceVal] at hv
              subst hv
              exact ⟨le_refl 0, Int.natCast_nonneg target⟩
        | cons t1 rest2 =>
            have ht1pos : (0 : ℚ) < t1 := (List.chain'_cons.mp hinc).1
            have hmem2 : ∀ t ∈ rest2, t1 ≤ t := by
              have hp : (t1 :: rest2).Pairwise (· < ·) :=
                List.chain'_iff_pairwise.mp (List.chain'_cons.mp hinc).2
              intro t ht
              exact le_of_lt ((List.pairwise_cons.mp hp).1 t ht)
            rw [animateTraceVal_cons target suffix CONFIG.counterDuration t1
              rest2
              { startTimestamp := some 0,
                innerHTML := toString (0 : ℤ) ++ suffix,
                shownVal := 0, done := false } rfl]
            rw [step_falsy target suffix CONFIG.counterDuration t1
              { startTimestamp := some 0,
                innerHTML := toString (0 : ℤ) ++ suffix,
                shownVal := 0, done := false } rfl]
            rw [traceVal_clean target suffix rest2 _ t1 rfl
              (ne_of_gt ht1pos) rfl]
            refine ⟨?_, ?_⟩
            · rw [List.chain'_cons']
              refine ⟨fun y hy => ?_, ?_⟩
              · rw [List.head?_cons, Option.mem_def, Option.some_inj] at hy
                subst hy
                exact le_refl 0
              · rw [List.chain'_cons']
                refine ⟨fun y hy => ?_, ?_⟩
                · cases rest2 with
                  | nil => simp [valTraceFrom] at hy
                  | cons t2 rest3 =>
                      rw [valTraceFrom_head] at hy
                      rw [Option.mem_def, Option.some_inj] at hy
                      subst hy
                      exact frameVal_nonneg target CONFIG.counterDuration t1
                        t2 hdpos (hmem2 t2 (List.mem_cons_self t2 rest3))
                · exact valTraceFrom_chain target CONFIG.counterDuration t1
                    hdpos rest2 hmem2
                    ((List.chain'_cons.mp hinc).2).tail
            · intro v hv
              rcases List.mem_cons.mp hv with h | h
              · subst h
                exact ⟨le_refl 0, Int.natCast_nonneg target⟩
              · rcases List.mem_cons.mp h with h2 | h2
                · subst h2
                  exact ⟨le_refl 0, Int.natCast_nonneg target⟩
                · exact valTraceFrom_bounds target CONFIG.counterDuration t1
                    hdpos rest2 hmem2 v h2
      · have hmem : ∀ t ∈ rest, t0 ≤ t := by
          have hp : (t0 :: rest).Pairwise (· < ·) :=
            List.chain'_iff_pairwise.mp hinc
          intro t ht
          exact le_of_lt ((List.pairwise_cons.mp hp).1 t ht)
        rw [traceVal_clean target suffix rest _ t0 rfl h0 rfl]
        refine ⟨?_, ?_⟩
        · rw [List.chain'_cons']
          refine ⟨fun y hy => ?_, ?_⟩
          · cases rest with
            | nil => simp [valTraceFrom] at hy
            | cons t1 rest2 =>
                rw [valTraceFrom_head] at hy
                rw [Option.mem_def, Option.some_inj] at hy
                subst hy
                exact frameVal_nonneg target CONFIG.counterDuration t0 t1
                  hdpos (hmem t1 (List.mem_cons_self t1 rest2))
          · exact valTraceFrom_chain target CONFIG.counterDuration t0 hdpos
              rest hmem hinc.tail
        · intro v hv
          rcases List.mem_cons.mp hv with h | h
          · subst h
            exact ⟨le_refl 0, Int.natCast_nonneg target⟩
          · exact valTraceFrom_bounds target CONFIG.counterDuration t0 hdpos
              rest hmem v h

/-- Witness for `counter_monotone_bounded` at frames 16, 500, 1200,
2016 and 3000 ms with `data-count="50"`. -/
theorem counter_monotone_bounded_witness :
    (animateTraceVal 50 "%" CONFIG.counterDuration [16, 500, 1200, 2016, 3000]
        initialCounter).Chain' (· ≤ ·) :=
  (counter_monotone_bounded 50 "%" [16, 500, 1200, 2016, 3000]
    (by simp [List.chain'_cons]; norm_num)).1

/-- Claim C10: a second click while the first 800 ms window is pending
captures the loading label as its "original"; after both timers fire
the button permanently shows the loading label (and no timer is left
to ever fix it). -/
theorem videoDoubleClick_stuck (L : String) (a : ℕ) :
    (videoRun [VideoEvent.click, VideoEvent.click] ⟨L, a, []⟩).pending =
        [L, loadingLabel] ∧
      videoRun [VideoEvent.click, VideoEvent.click, VideoEvent.fire,
          VideoEvent.fire] ⟨L, a, []⟩ =
        ⟨loadingLabel, a + 2, []⟩ :=
  ⟨rfl, rfl⟩

end Noran
